import Mathlib

/-!
Verification development for `pkg/trace/stats/concentrator.go` (trace-stats
concentrator): a shallow embedding of the concentrator's data model and of the
operations `NewConcentrator`, `addNow`/`Add`, `flushNow` and the helpers
`alignTs`, `computeStatsForSpanKind` and `preparePeerTags`, together with
theorems settling the spec's claims about bucket-timestamp assignment,
retention, forced drain, watermark monotonicity, span eligibility, peer-tag
merging, flush idempotence and payload shape.

Conventions of the embedding:
* Go `int64` timestamps and durations are modelled as `Int`; Go's `%` on
  `int64` is truncated division, i.e. `Int.tmod`.
* The Go map `map[int64]*RawBucket` is modelled as an association list with
  unique-key discipline (lookup finds the first matching key, update replaces
  the first matching entry), which coincides with Go map semantics on every
  reachable state.
* Go's byte-wise string order (used by `sort.Strings`) is modelled as the
  lexicographic order on `String.data` (code-point order coincides with
  byte-wise UTF-8 order).
-/

/-- Association-list lookup: first entry whose key equals `k`, modelling Go
map access `l[k]`. -/
def alookup {α β : Type} [DecidableEq α] (l : List (α × β)) (k : α) : Option β :=
  (l.find? (fun p => decide (p.1 = k))).map Prod.snd

/-- Association-list update of the first entry with key `k`, modelling Go map
assignment `l[k] = v` when `k` is already present. -/
def assocReplace {α β : Type} [DecidableEq α] (k : α) (v : β) : List (α × β) → List (α × β)
  | [] => []
  | p :: ps => if p.1 = k then (k, v) :: ps else p :: assocReplace k v ps

/-- Association-list put: replace the first entry with key `k` if present,
otherwise append, modelling Go map assignment `l[k] = v`. -/
def assocPut {α β : Type} [DecidableEq α] (l : List (α × β)) (k : α) (v : β) : List (α × β) :=
  match alookup l k with
  | some _ => assocReplace k v l
  | none => l ++ [(k, v)]

/-- Go map read with zero value: `m[k]` yields `""` when `k` is absent. -/
def metaGet (m : List (String × String)) (k : String) : String :=
  (alookup m k).getD ""

/-- Modelled from the spec: a processed span as consumed by the concentrator.
`Start`, `Duration` and the `Meta` string map come from the span message
(`span.Meta["span.kind"]` is read by `computeStatsForSpanKind`); `TopLevel`,
`Measured` and `IsPartialSnapshot` stand for the external `traceutil`
predicates `HasTopLevel`, `IsMeasured` and `IsPartialSnapshot`, which the spec
treats as opaque span attributes (top-level span, measured span, partial
snapshot flag). -/
structure Span where
  Start : Int
  Duration : Int
  Meta : List (String × String)
  TopLevel : Bool
  Measured : Bool
  IsPartialSnapshot : Bool
deriving DecidableEq

/-- Modelled from the spec: the immutable 6-tuple aggregation key (env,
hostname, version, container id, git commit sha, image tag), a value-comparable
map key. The Go type lives in `pkg/trace/stats/aggregation.go`, outside the
provided core. -/
structure PayloadAggregationKey where
  Env : String
  Hostname : String
  Version : String
  ContainerID : String
  GitCommitSha : String
  ImageTag : String
deriving DecidableEq

/-- Modelled from the spec: one exported per-window stats record
(`pb.ClientStatsBucket`). The per-span statistical math is external; the
record keeps the window start/duration and the multiset of spans that were
applied to it, which is all the claims inspect. -/
structure ClientStatsBucket where
  Start : Int
  Duration : Int
  spans : List Span
deriving DecidableEq

/-- Modelled from the spec: one per-aggregation-key group of the output
payload (`pb.ClientStatsPayload`). -/
structure ClientStatsPayload where
  Env : String
  Hostname : String
  ContainerID : String
  Version : String
  GitCommitSha : String
  ImageTag : String
  Stats : List ClientStatsBucket
  Tags : List String
deriving DecidableEq

/-- Modelled from the spec: the top-level output envelope (`pb.StatsPayload`)
carrying agent identity fields and the list of groups. -/
structure StatsPayload where
  Stats : List ClientStatsPayload
  AgentHostname : String
  AgentEnv : String
  AgentVersion : String
deriving DecidableEq

/-- Modelled from the spec: the external Bucket Aggregator (`RawBucket`,
defined in `pkg/trace/stats/statsraw.go`, outside the provided core). Its
contract: created with a window start and width, accumulates `HandleSpan`
applications commutatively, carries a container-id → container-tags
side-table, and `Export` yields a mapping from aggregation key to a per-window
stats record. `data` records each (aggregation key, span) application; the
sampling weight, top-level flag, origin and peer-tag arguments of the real
`HandleSpan` only influence the internal statistics, which are opaque to every
claim, and are therefore not recorded. -/
structure RawBucket where
  start : Int
  duration : Int
  data : List (PayloadAggregationKey × Span)
  containerTagsByID : List (String × List String)
deriving DecidableEq

/-- Modelled from the spec: Bucket Aggregator creation `create(timestamp,
width)` (`NewRawBucket`). -/
def NewRawBucket (start duration : Int) : RawBucket :=
  { start := start, duration := duration, data := [], containerTagsByID := [] }

/-- Modelled from the spec: `Bucket.handleSpan` records one application of a
span under its aggregation key. -/
def RawBucket.HandleSpan (b : RawBucket) (aggKey : PayloadAggregationKey) (s : Span) : RawBucket :=
  { b with data := b.data ++ [(aggKey, s)] }

/-- Left-to-right deduplication keeping first occurrences, as the `seen`-map
loop of `preparePeerTags` does; `seen` is the set of already-emitted tags. -/
def dedupAux {α : Type} [DecidableEq α] (seen : List α) : List α → List α
  | [] => []
  | t :: ts => if t ∈ seen then dedupAux seen ts else t :: dedupAux (t :: seen) ts

/-- Go's byte-wise string order used by `sort.Strings`, modelled as the
lexicographic order on `String.data`. -/
def strle (a b : String) : Prop :=
  a.data ≤ b.data

instance : DecidableRel strle := fun a b => by unfold strle; infer_instance

/-- `preparePeerTags` (concentrator.go:89-103): nil on empty input, otherwise
first-occurrence deduplication followed by `sort.Strings`. -/
def preparePeerTags (tags : List String) : List String :=
  if tags = [] then []
  else List.insertionSort strle (dedupAux [] tags)

/-- `defaultBufferLen` (concentrator.go:28). -/
def defaultBufferLen : Int := 2

/-- The configuration fields consumed by `NewConcentrator`
(`config.AgentConfig`, external; field names as in the source). -/
structure AgentConfig where
  BucketInterval : Int
  DefaultEnv : String
  Hostname : String
  AgentVersion : String
  PeerServiceAggregation : Bool
  PeerTagsAggregation : Bool
  ComputeStatsBySpanKind : Bool
  PeerTags : List String
deriving DecidableEq

/-- The `Concentrator` state (concentrator.go:40-64). The writer, statsd
client, lock and lifecycle channels are concurrency plumbing with no bearing
on the claims; the lock's effect is modelled by the operations being atomic
state transformers. -/
structure Concentrator where
  bsize : Int
  oldestTs : Int
  bufferLen : Int
  buckets : List (Int × RawBucket)
  agentEnv : String
  agentHostname : String
  agentVersion : String
  peerTagsAggregation : Bool
  computeStatsBySpanKind : Bool
  peerTagKeys : List String
deriving DecidableEq

/-- `alignTs` (concentrator.go:322-324): truncate a timestamp to the bucket
size; Go `%` on `int64` is `Int.tmod`. -/
def alignTs (ts bsize : Int) : Int :=
  ts - Int.tmod ts bsize

/-- `NewConcentrator` (concentrator.go:106-130). `defaultPeerTags` is the
process-wide catalog loaded from the embedded `peer_tags.ini` resource
(external to the provided core), passed here as a parameter. -/
def NewConcentrator (defaultPeerTags : List String) (conf : AgentConfig) (now : Int) : Concentrator :=
  { bsize := conf.BucketInterval
    buckets := []
    oldestTs := alignTs now conf.BucketInterval
    bufferLen := defaultBufferLen
    agentEnv := conf.DefaultEnv
    agentHostname := conf.Hostname
    agentVersion := conf.AgentVersion
    peerTagsAggregation := conf.PeerServiceAggregation || conf.PeerTagsAggregation
    computeStatsBySpanKind := conf.ComputeStatsBySpanKind
    peerTagKeys :=
      if conf.PeerServiceAggregation || conf.PeerTagsAggregation
      then preparePeerTags (defaultPeerTags ++ conf.PeerTags)
      else [] }

/-- The Unicode simple lowercase mapping applied rune-by-rune by Go's
`strings.ToLower` / `unicode.ToLower`, delta-coded as case ranges
`(lo, hi, step, delta)` in the style of Go's `unicode.CaseRanges`: a code
point `cp` with `lo ≤ cp ≤ hi` and `(cp - lo) % step = 0` lowercases to
`cp + delta`; a code point covered by no range is unchanged. Generated from
the Unicode character database's simple lowercase mapping (the one code point
whose full lowercasing is multi-character, U+0130, has simple lowercase
U+0069, as in Go). -/
def lowerRanges : List (Nat × Nat × Nat × Int) :=
  [
    (65, 90, 1, 32), (192, 214, 1, 32), (216, 222, 1, 32),
    (256, 302, 2, 1), (304, 304, 1, -199), (306, 310, 2, 1),
    (313, 327, 2, 1), (330, 374, 2, 1), (376, 376, 1, -121),
    (377, 381, 2, 1), (385, 385, 1, 210), (386, 388, 2, 1),
    (390, 390, 1, 206), (391, 391, 1, 1), (393, 394, 1, 205),
    (395, 395, 1, 1), (398, 398, 1, 79), (399, 399, 1, 202),
    (400, 400, 1, 203), (401, 401, 1, 1), (403, 403, 1, 205),
    (404, 404, 1, 207), (406, 406, 1, 211), (407, 407, 1, 209),
    (408, 408, 1, 1), (412, 412, 1, 211), (413, 413, 1, 213),
    (415, 415, 1, 214), (416, 420, 2, 1), (422, 422, 1, 218),
    (423, 423, 1, 1), (425, 425, 1, 218), (428, 428, 1, 1),
    (430, 430, 1, 218), (431, 431, 1, 1), (433, 434, 1, 217),
    (435, 437, 2, 1), (439, 439, 1, 219), (440, 440, 1, 1),
    (444, 444, 1, 1), (452, 452, 1, 2), (453, 453, 1, 1),
    (455, 455, 1, 2), (456, 456, 1, 1), (458, 458, 1, 2),
    (459, 475, 2, 1), (478, 494, 2, 1), (497, 497, 1, 2),
    (498, 500, 2, 1), (502, 502, 1, -97), (503, 503, 1, -56),
    (504, 542, 2, 1), (544, 544, 1, -130), (546, 562, 2, 1),
    (570, 570, 1, 10795), (571, 571, 1, 1), (573, 573, 1, -163),
    (574, 574, 1, 10792), (577, 577, 1, 1), (579, 579, 1, -195),
    (580, 580, 1, 69), (581, 581, 1, 71), (582, 590, 2, 1),
    (880, 882, 2, 1), (886, 886, 1, 1), (895, 895, 1, 116),
    (902, 902, 1, 38), (904, 906, 1, 37), (908, 908, 1, 64),
    (910, 911, 1, 63), (913, 929, 1, 32), (931, 939, 1, 32),
    (975, 975, 1, 8), (984, 1006, 2, 1), (1012, 1012, 1, -60),
    (1015, 1015, 1, 1), (1017, 1017, 1, -7), (1018, 1018, 1, 1),
    (1021, 1023, 1, -130), (1024, 1039, 1, 80), (1040, 1071, 1, 32),
    (1120, 1152, 2, 1), (1162, 1214, 2, 1), (1216, 1216, 1, 15),
    (1217, 1229, 2, 1), (1232, 1326, 2, 1), (1329, 1366, 1, 48),
    (4256, 4293, 1, 7264), (4295, 4295, 1, 7264), (4301, 4301, 1, 7264),
    (5024, 5103, 1, 38864), (5104, 5109, 1, 8), (7312, 7354, 1, -3008),
    (7357, 7359, 1, -3008), (7680, 7828, 2, 1), (7838, 7838, 1, -7615),
    (7840, 7934, 2, 1), (7944, 7951, 1, -8), (7960, 7965, 1, -8),
    (7976, 7983, 1, -8), (7992, 7999, 1, -8), (8008, 8013, 1, -8),
    (8025, 8031, 2, -8), (8040, 8047, 1, -8), (8072, 8079, 1, -8),
    (8088, 8095, 1, -8), (8104, 8111, 1, -8), (8120, 8121, 1, -8),
    (8122, 8123, 1, -74), (8124, 8124, 1, -9), (8136, 8139, 1, -86),
    (8140, 8140, 1, -9), (8152, 8153, 1, -8), (8154, 8155, 1, -100),
    (8168, 8169, 1, -8), (8170, 8171, 1, -112), (8172, 8172, 1, -7),
    (8184, 8185, 1, -128), (8186, 8187, 1, -126), (8188, 8188, 1, -9),
    (8486, 8486, 1, -7517), (8490, 8490, 1, -8383), (8491, 8491, 1, -8262),
    (8498, 8498, 1, 28), (8544, 8559, 1, 16), (8579, 8579, 1, 1),
    (9398, 9423, 1, 26), (11264, 11311, 1, 48), (11360, 11360, 1, 1),
    (11362, 11362, 1, -10743), (11363, 11363, 1, -3814), (11364, 11364, 1, -10727),
    (11367, 11371, 2, 1), (11373, 11373, 1, -10780), (11374, 11374, 1, -10749),
    (11375, 11375, 1, -10783), (11376, 11376, 1, -10782), (11378, 11378, 1, 1),
    (11381, 11381, 1, 1), (11390, 11391, 1, -10815), (11392, 11490, 2, 1),
    (11499, 11501, 2, 1), (11506, 11506, 1, 1), (42560, 42604, 2, 1),
    (42624, 42650, 2, 1), (42786, 42798, 2, 1), (42802, 42862, 2, 1),
    (42873, 42875, 2, 1), (42877, 42877, 1, -35332), (42878, 42886, 2, 1),
    (42891, 42891, 1, 1), (42893, 42893, 1, -42280), (42896, 42898, 2, 1),
    (42902, 42920, 2, 1), (42922, 42922, 1, -42308), (42923, 42923, 1, -42319),
    (42924, 42924, 1, -42315), (42925, 42925, 1, -42305), (42926, 42926, 1, -42308),
    (42928, 42928, 1, -42258), (42929, 42929, 1, -42282), (42930, 42930, 1, -42261),
    (42931, 42931, 1, 928), (42932, 42946, 2, 1), (42948, 42948, 1, -48),
    (42949, 42949, 1, -42307), (42950, 42950, 1, -35384), (42951, 42953, 2, 1),
    (42960, 42960, 1, 1), (42966, 42968, 2, 1), (42997, 42997, 1, 1),
    (65313, 65338, 1, 32), (66560, 66599, 1, 40), (66736, 66771, 1, 40),
    (66928, 66938, 1, 39), (66940, 66954, 1, 39), (66956, 66962, 1, 39),
    (66964, 66965, 1, 39), (68736, 68786, 1, 64), (71840, 71871, 1, 32),
    (93760, 93791, 1, 32), (125184, 125217, 1, 34)
  ]

/-- Go's `unicode.ToLower` on one rune: look up the containing case range and
apply its delta. -/
def charToLowerGo (c : Char) : Char :=
  match lowerRanges.find? (fun r =>
      decide (r.1 ≤ c.toNat ∧ c.toNat ≤ r.2.1 ∧ (c.toNat - r.1) % r.2.2.1 = 0)) with
  | some r => Char.ofNat (((c.toNat : Int) + r.2.2.2).toNat)
  | none => c

/-- Go's `strings.ToLower`: the simple lowercase mapping applied to every
rune. -/
def toLowerStr (s : String) : String :=
  ⟨s.data.map charToLowerGo⟩

/-- `computeStatsForSpanKind` (concentrator.go:170-178): switch on the
lower-cased `span.kind` meta value. -/
def computeStatsForSpanKind (s : Span) : Bool :=
  match toLowerStr (metaGet s.Meta "span.kind") with
  | "server" => true
  | "consumer" => true
  | "client" => true
  | "producer" => true
  | _ => false

/-- A processed trace as consumed by `addNow` (`traceutil.ProcessedTrace`,
external): the chunk's spans and origin are flattened in
(`pt.TraceChunk.Spans`, `pt.TraceChunk.Origin`). The root span only feeds the
sampling weight, which is opaque to every claim and not modelled. -/
structure ProcessedTrace where
  TracerHostname : String
  TracerEnv : String
  AppVersion : String
  GitCommitSha : String
  ImageTag : String
  Origin : String
  Spans : List Span
deriving DecidableEq

/-- The bucket-timestamp computation of `addNow` (concentrator.go:242-248):
align the span end time to the bucket size, clamping to `oldestTs` when too
far in the past. -/
def spanBucketTs (c : Concentrator) (s : Span) : Int :=
  let e := s.Start + s.Duration
  let btime := e - Int.tmod e c.bsize
  if btime < c.oldestTs then c.oldestTs else btime

/-- The per-span body of `addNow`'s loop (concentrator.go:233-259):
eligibility filter, partial-snapshot exclusion, bucket-timestamp computation
with lateness clamp, get-or-create of the bucket (seeding container tags on
creation), and delegation to `HandleSpan`. -/
def addSpan (c : Concentrator) (aggKey : PayloadAggregationKey) (containerID : String)
    (containerTags : List String) (s : Span) : Concentrator :=
  let isTop := s.TopLevel
  let eligibleSpanKind := c.computeStatsBySpanKind && computeStatsForSpanKind s
  if !(isTop || s.Measured || eligibleSpanKind) then c
  else if s.IsPartialSnapshot then c
  else
    let btime := spanBucketTs c s
    match alookup c.buckets btime with
    | some b => { c with buckets := assocReplace btime (b.HandleSpan aggKey s) c.buckets }
    | none =>
      let b0 := NewRawBucket btime c.bsize
      let b1 :=
        if containerID ≠ "" ∧ containerTags ≠ []
        then { b0 with containerTagsByID := [(containerID, containerTags)] }
        else b0
      { c with buckets := c.buckets ++ [(btime, b1.HandleSpan aggKey s)] }

/-- `addNow` (concentrator.go:215-260): hostname/env defaulting, aggregation
key derivation, then the per-span loop. -/
def addNow (c : Concentrator) (pt : ProcessedTrace) (containerID : String)
    (containerTags : List String) : Concentrator :=
  let hostname := if pt.TracerHostname = "" then c.agentHostname else pt.TracerHostname
  let env := if pt.TracerEnv = "" then c.agentEnv else pt.TracerEnv
  let aggKey : PayloadAggregationKey :=
    { Env := env, Hostname := hostname, Version := pt.AppVersion,
      ContainerID := containerID, GitCommitSha := pt.GitCommitSha, ImageTag := pt.ImageTag }
  pt.Spans.foldl (fun acc s => addSpan acc aggKey containerID containerTags s) c

/-- `Input` (concentrator.go:181-185). -/
structure Input where
  Traces : List ProcessedTrace
  ContainerID : String
  ContainerTags : List String
deriving DecidableEq

/-- `Add` (concentrator.go:205-211): apply `addNow` to each trace of the
batch under the lock. -/
def Concentrator.Add (c : Concentrator) (t : Input) : Concentrator :=
  t.Traces.foldl (fun acc tr => addNow acc tr t.ContainerID t.ContainerTags) c

/-- The buckets exported by the sweep of `flushNow` (concentrator.go:273-293):
a bucket is exported unless `!force && ts > now - bufferLen*bsize`. -/
def flushExported (c : Concentrator) (now : Int) (force : Bool) : List (Int × RawBucket) :=
  c.buckets.filter (fun p => force || !(decide (p.1 > now - c.bufferLen * c.bsize)))

/-- The buckets retained by the sweep of `flushNow` (concentrator.go:281-284):
exactly those skipped by the retention check. -/
def flushRetained (c : Concentrator) (now : Int) (force : Bool) : List (Int × RawBucket) :=
  c.buckets.filter (fun p => !force && decide (p.1 > now - c.bufferLen * c.bsize))

/-- `Export` of the Bucket Aggregator, modelled from the spec: group the
bucket's recorded span applications by aggregation key, yielding one
per-window stats record per key. -/
def RawBucket.Export (b : RawBucket) : List (PayloadAggregationKey × ClientStatsBucket) :=
  (dedupAux [] (b.data.map Prod.fst)).map (fun k =>
    (k, { Start := b.start, Duration := b.duration,
          spans := (b.data.filter (fun p => decide (p.1 = k))).map Prod.snd }))

/-- The body of `flushNow`'s sweep for one exported bucket
(concentrator.go:286-291): merge each exported record into the global
key-indexed result, and capture the bucket's container-tag entries for the
container ids seen. -/
def exportStep
    (acc : List (PayloadAggregationKey × List ClientStatsBucket) × List (String × List String))
    (p : Int × RawBucket) :
    List (PayloadAggregationKey × List ClientStatsBucket) × List (String × List String) :=
  p.2.Export.foldl
    (fun a kb =>
      ( (match alookup a.1 kb.1 with
         | some s => assocReplace kb.1 (s ++ [kb.2]) a.1
         | none => a.1 ++ [(kb.1, [kb.2])]),
        match alookup p.2.containerTagsByID kb.1.ContainerID with
        | some ctags => assocPut a.2 kb.1.ContainerID ctags
        | none => a.2 ))
    acc

/-- `flushNow` (concentrator.go:268-318): sweep the bucket map under the
retention policy, remove and export eligible buckets, advance the `oldestTs`
watermark monotonically, and assemble the payload outside the lock. Returns
the post-state together with the payload handed to the writer. -/
def flushNow (c : Concentrator) (now : Int) (force : Bool) : Concentrator × StatsPayload :=
  let acc := (flushExported c now force).foldl exportStep ([], [])
  let m := acc.1
  let containerTagsByID := acc.2
  let newOldestTs := alignTs now c.bsize - (c.bufferLen - 1) * c.bsize
  let c' := { c with
    buckets := flushRetained c now force
    oldestTs := if newOldestTs > c.oldestTs then newOldestTs else c.oldestTs }
  let sb := m.map (fun ks =>
    ({ Env := ks.1.Env, Hostname := ks.1.Hostname, ContainerID := ks.1.ContainerID,
       Version := ks.1.Version, GitCommitSha := ks.1.GitCommitSha, ImageTag := ks.1.ImageTag,
       Stats := ks.2,
       Tags := (alookup containerTagsByID ks.1.ContainerID).getD [] } : ClientStatsPayload))
  (c', { Stats := sb, AgentHostname := c.agentHostname, AgentEnv := c.agentEnv,
         AgentVersion := c.agentVersion })

/-- One serialized operation on the concentrator: an ingestion batch (`Add`)
or a flush with an injected time snapshot (`flushNow`). The mutex serializes
these, so any concurrent execution is some interleaving, i.e. some list of
`ConcOp`s. -/
inductive ConcOp where
  | add (t : Input)
  | flush (now : Int) (force : Bool)
deriving DecidableEq

/-- Apply one serialized operation. -/
def applyOp (c : Concentrator) : ConcOp → Concentrator
  | ConcOp.add t => c.Add t
  | ConcOp.flush now force => (flushNow c now force).1

/-- Apply a sequence of serialized operations. -/
def applyOps (c : Concentrator) (ops : List ConcOp) : Concentrator :=
  ops.foldl applyOp c

/-- Total number of span applications recorded across all buckets: the
measure by which one sees whether a span reached `HandleSpan`. -/
def totalSpans (c : Concentrator) : Nat :=
  (c.buckets.map (fun p => p.2.data.length)).sum

/-- The condition of `addNow` under which a span is processed
(concentrator.go:233-241), as the claims phrase it: not a partial snapshot,
and top-level or measured or span-kind-eligible. -/
def spanProcessed (c : Concentrator) (s : Span) : Prop :=
  ¬s.IsPartialSnapshot = true ∧
    (s.TopLevel = true ∨ s.Measured = true ∨
      (c.computeStatsBySpanKind = true ∧ computeStatsForSpanKind s = true))

instance (c : Concentrator) (s : Span) : Decidable (spanProcessed c s) := by
  unfold spanProcessed; infer_instance

/-! ### Association-list lemmas -/

theorem alookup_cons {α β : Type} [DecidableEq α] (p : α × β) (l : List (α × β)) (k : α) :
    alookup (p :: l) k = if p.1 = k then some p.2 else alookup l k := by
  unfold alookup
  by_cases h : p.1 = k
  · rw [List.find?_cons_of_pos _ (by simp [h])]
    simp [h]
  · rw [List.find?_cons_of_neg _ (by simp [h])]
    simp [h]

theorem alookup_assocReplace_of_some {α β : Type} [DecidableEq α]
    (l : List (α × β)) (k : α) (v : β) (b : β) (h : alookup l k = some b) :
    alookup (assocReplace k v l) k = some v := by
  induction l with
  | nil => simp [alookup] at h
  | cons p ps ih =>
    rw [alookup_cons] at h
    by_cases hp : p.1 = k
    · simp only [assocReplace, if_pos hp]
      rw [alookup_cons]
      simp
    · simp only [assocReplace, if_neg hp]
      rw [alookup_cons, if_neg hp]
      exact ih (by simpa [hp] using h)

theorem alookup_append_of_none {α β : Type} [DecidableEq α]
    (l : List (α × β)) (k : α) (v : β) (h : alookup l k = none) :
    alookup (l ++ [(k, v)]) k = some v := by
  induction l with
  | nil => simp [alookup]
  | cons p ps ih =>
    rw [alookup_cons] at h
    by_cases hp : p.1 = k
    · simp [hp] at h
    · rw [List.cons_append, alookup_cons, if_neg hp]
      exact ih (by simpa [hp] using h)

theorem mem_assocReplace {α β : Type} [DecidableEq α]
    (l : List (α × β)) (k : α) (v : β) (p : α × β) (h : p ∈ assocReplace k v l) :
    p = (k, v) ∨ p ∈ l := by
  induction l with
  | nil => simp [assocReplace] at h
  | cons q qs ih =>
    simp only [assocReplace] at h
    by_cases hq : q.1 = k
    · rw [if_pos hq] at h
      rcases List.mem_cons.mp h with h1 | h1
      · exact Or.inl h1
      · exact Or.inr (List.mem_cons_of_mem _ h1)
    · rw [if_neg hq] at h
      rcases List.mem_cons.mp h with h1 | h1
      · exact Or.inr (by simp [h1])
      · rcases ih h1 with h2 | h2
        · exact Or.inl h2
        · exact Or.inr (List.mem_cons_of_mem _ h2)

/-! ### Deduplication lemmas -/

theorem mem_dedupAux {α : Type} [DecidableEq α] (l : List α) :
    ∀ (seen : List α) (x : α), x ∈ dedupAux seen l ↔ x ∈ l ∧ x ∉ seen := by
  induction l with
  | nil => intro seen x; simp [dedupAux]
  | cons t ts ih =>
    intro seen x
    simp only [dedupAux]
    by_cases ht : t ∈ seen
    · rw [if_pos ht, ih]
      constructor
      · rintro ⟨h1, h2⟩; exact ⟨List.mem_cons_of_mem _ h1, h2⟩
      · rintro ⟨h1, h2⟩
        rcases List.mem_cons.mp h1 with h3 | h3
        · exact absurd (h3 ▸ ht) h2
        · exact ⟨h3, h2⟩
    · rw [if_neg ht]
      rw [List.mem_cons, ih]
      constructor
      · rintro (h1 | ⟨h1, h2⟩)
        · exact ⟨by simp [h1], h1 ▸ ht⟩
        · exact ⟨List.mem_cons_of_mem _ h1, fun hx => h2 (List.mem_cons_of_mem _ hx)⟩
      · rintro ⟨h1, h2⟩
        rcases List.mem_cons.mp h1 with h3 | h3
        · exact Or.inl h3
        · by_cases hxt : x = t
          · exact Or.inl hxt
          · exact Or.inr ⟨h3, by simp [hxt, h2]⟩

theorem nodup_dedupAux {α : Type} [DecidableEq α] (l : List α) :
    ∀ seen : List α, (dedupAux seen l).Nodup := by
  induction l with
  | nil => intro seen; simp [dedupAux]
  | cons t ts ih =>
    intro seen
    simp only [dedupAux]
    by_cases ht : t ∈ seen
    · rw [if_pos ht]; exact ih seen
    · rw [if_neg ht]
      refine List.nodup_cons.mpr ⟨?_, ih (t :: seen)⟩
      intro hmem
      exact ((mem_dedupAux ts (t :: seen) t).mp hmem).2 (List.mem_cons_self t seen)

/-! ### Structural lemmas about the operations -/

theorem foldl_preserves {σ α : Type} {g : σ → α → σ} {I : σ → Prop}
    (h : ∀ x a, I x → I (g x a)) : ∀ (l : List α) (x : σ), I x → I (l.foldl g x) := by
  intro l
  induction l with
  | nil => intro x hx; exact hx
  | cons a as ih => intro x hx; exact ih (g x a) (h x a hx)

theorem addSpan_struct (c : Concentrator) (k : PayloadAggregationKey) (cid : String)
    (ct : List String) (s : Span) :
    ∃ bs, addSpan c k cid ct s = { c with buckets := bs } := by
  unfold addSpan
  dsimp only
  split
  · exact ⟨c.buckets, rfl⟩
  · split
    · exact ⟨c.buckets, rfl⟩
    · split
      · exact ⟨_, rfl⟩
      · exact ⟨_, rfl⟩

theorem addNow_struct (c : Concentrator) (pt : ProcessedTrace) (cid : String)
    (ct : List String) :
    ∃ bs, addNow c pt cid ct = { c with buckets := bs } := by
  unfold addNow
  refine foldl_preserves (I := fun x => ∃ bs, x = { c with buckets := bs }) ?_ pt.Spans c
    ⟨c.buckets, rfl⟩
  rintro x s ⟨bs, rfl⟩
  obtain ⟨bs', h⟩ := addSpan_struct { c with buckets := bs } _ cid ct s
  exact ⟨bs', h⟩

theorem Add_struct (c : Concentrator) (t : Input) :
    ∃ bs, c.Add t = { c with buckets := bs } := by
  unfold Concentrator.Add
  refine foldl_preserves (I := fun x => ∃ bs, x = { c with buckets := bs }) ?_ t.Traces c
    ⟨c.buckets, rfl⟩
  rintro x tr ⟨bs, rfl⟩
  obtain ⟨bs', h⟩ := addNow_struct { c with buckets := bs } tr t.ContainerID t.ContainerTags
  exact ⟨bs', h⟩

theorem flushNow_fst (c : Concentrator) (now : Int) (force : Bool) :
    (flushNow c now force).1 = { c with
      buckets := flushRetained c now force
      oldestTs :=
        if alignTs now c.bsize - (c.bufferLen - 1) * c.bsize > c.oldestTs
        then alignTs now c.bsize - (c.bufferLen - 1) * c.bsize
        else c.oldestTs } := rfl

/-- `spanProcessed` is exactly the complement of the two skip conditions of
`addNow`'s loop. -/
theorem spanProcessed_iff (c : Concentrator) (s : Span) :
    spanProcessed c s ↔
      ((!(s.TopLevel || s.Measured || (c.computeStatsBySpanKind && computeStatsForSpanKind s))) = false
        ∧ s.IsPartialSnapshot = false) := by
  unfold spanProcessed
  cases s.TopLevel <;> cases s.Measured <;> cases s.IsPartialSnapshot <;>
    cases hk : c.computeStatsBySpanKind <;> simp [hk]

/-! ### Alignment and insertion lemmas -/

theorem dvd_alignTs (ts b : Int) : b ∣ alignTs ts b := by
  refine ⟨Int.tdiv ts b, ?_⟩
  have h := Int.tdiv_add_tmod ts b
  unfold alignTs
  linarith

theorem spanBucketTs_dvd (c : Concentrator) (s : Span) (h : c.bsize ∣ c.oldestTs) :
    c.bsize ∣ spanBucketTs c s := by
  unfold spanBucketTs
  dsimp only
  split
  · exact h
  · exact dvd_alignTs (s.Start + s.Duration) c.bsize

theorem sum_assocReplace (k : Int) (v : RawBucket) :
    ∀ (l : List (Int × RawBucket)) (b : RawBucket), alookup l k = some b →
      ((assocReplace k v l).map (fun p => p.2.data.length)).sum + b.data.length
        = (l.map (fun p => p.2.data.length)).sum + v.data.length := by
  intro l
  induction l with
  | nil => intro b h; simp [alookup] at h
  | cons p ps ih =>
    intro b h
    rw [alookup_cons] at h
    by_cases hp : p.1 = k
    · rw [if_pos hp] at h
      injection h with h
      simp only [assocReplace, if_pos hp, List.map_cons, List.sum_cons, h]
      omega
    · rw [if_neg hp] at h
      have := ih b h
      simp only [assocReplace, if_neg hp, List.map_cons, List.sum_cons]
      omega

theorem addSpan_skip (c : Concentrator) (k : PayloadAggregationKey) (cid : String)
    (ct : List String) (s : Span) (hp : ¬ spanProcessed c s) :
    addSpan c k cid ct s = c := by
  unfold addSpan
  dsimp only
  cases hg : (!(s.TopLevel || s.Measured || (c.computeStatsBySpanKind && computeStatsForSpanKind s))) with
  | true => simp [hg]
  | false =>
    cases hp2 : s.IsPartialSnapshot with
    | true => simp [hg, hp2]
    | false => exact absurd ((spanProcessed_iff c s).mpr ⟨hg, hp2⟩) hp

theorem addSpan_insert (c : Concentrator) (k : PayloadAggregationKey) (cid : String)
    (ct : List String) (s : Span) (hp : spanProcessed c s) :
    ∃ b : RawBucket,
      alookup (addSpan c k cid ct s).buckets (spanBucketTs c s) = some b
        ∧ (k, s) ∈ b.data
        ∧ totalSpans (addSpan c k cid ct s) = totalSpans c + 1 := by
  obtain ⟨hg, hp2⟩ := (spanProcessed_iff c s).mp hp
  unfold addSpan
  dsimp only
  rw [hg, hp2]
  simp only [Bool.false_eq_true, if_false]
  cases hl : alookup c.buckets (spanBucketTs c s) with
  | some b =>
    dsimp only
    refine ⟨b.HandleSpan k s, ?_, ?_, ?_⟩
    · exact alookup_assocReplace_of_some _ _ _ _ hl
    · simp [RawBucket.HandleSpan]
    · have := sum_assocReplace (spanBucketTs c s) (b.HandleSpan k s) c.buckets b hl
      have hlen : (b.HandleSpan k s).data.length = b.data.length + 1 := by
        simp [RawBucket.HandleSpan]
      unfold totalSpans
      dsimp only
      omega
  | none =>
    dsimp only
    refine ⟨?_, ?_, ?_, ?_⟩
    · exact (if cid ≠ "" ∧ ct ≠ []
        then { NewRawBucket (spanBucketTs c s) c.bsize with containerTagsByID := [(cid, ct)] }
        else NewRawBucket (spanBucketTs c s) c.bsize).HandleSpan k s
    · exact alookup_append_of_none _ _ _ hl
    · split <;> simp [RawBucket.HandleSpan, NewRawBucket]
    · unfold totalSpans
      simp only [List.map_append, List.sum_append]
      split <;> simp [RawBucket.HandleSpan, NewRawBucket]

/-! ### Flush and invariant lemmas -/

theorem flushNow_stats_of_exported_nil (c : Concentrator) (now : Int) (force : Bool)
    (h : flushExported c now force = []) : (flushNow c now force).2.Stats = [] := by
  unfold flushNow
  dsimp only
  rw [h]
  rfl

theorem applyOp_oldestTs_mono (c : Concentrator) (op : ConcOp) :
    c.oldestTs ≤ (applyOp c op).oldestTs := by
  cases op with
  | add t =>
    obtain ⟨bs, h⟩ := Add_struct c t
    simp only [applyOp, h]
    exact le_refl _
  | flush now force =>
    simp only [applyOp]
    rw [flushNow_fst]
    dsimp only
    split
    · exact le_of_lt (by assumption)
    · exact le_refl _

theorem applyOps_oldestTs_mono (ops : List ConcOp) :
    ∀ c : Concentrator, c.oldestTs ≤ (applyOps c ops).oldestTs := by
  induction ops with
  | nil => intro c; exact le_refl _
  | cons op ops ih =>
    intro c
    exact le_trans (applyOp_oldestTs_mono c op) (ih (applyOp c op))

theorem mem_addSpan_buckets (c : Concentrator) (k : PayloadAggregationKey) (cid : String)
    (ct : List String) (s : Span) (p : Int × RawBucket)
    (h : p ∈ (addSpan c k cid ct s).buckets) :
    p.1 = spanBucketTs c s ∨ p ∈ c.buckets := by
  unfold addSpan at h
  dsimp only at h
  split at h
  · exact Or.inr h
  · split at h
    · exact Or.inr h
    · split at h
      · dsimp only at h
        rcases mem_assocReplace _ _ _ _ h with h1 | h1
        · exact Or.inl (by rw [h1])
        · exact Or.inr h1
      · dsimp only at h
        rcases List.mem_append.mp h with h1 | h1
        · exact Or.inr h1
        · left
          have := List.mem_singleton.mp h1
          rw [this]

/-- The alignment invariant of the bucket store: fixed bucket width `B`, every
bucket-map key a multiple of `B`, and the watermark a multiple of `B`. -/
def AlignedState (B : Int) (c : Concentrator) : Prop :=
  c.bsize = B ∧ (∀ p ∈ c.buckets, B ∣ p.1) ∧ B ∣ c.oldestTs

theorem addSpan_aligned (B : Int) (c : Concentrator) (k : PayloadAggregationKey)
    (cid : String) (ct : List String) (s : Span) (h : AlignedState B c) :
    AlignedState B (addSpan c k cid ct s) := by
  obtain ⟨hb, hk, ho⟩ := h
  obtain ⟨bs, hs⟩ := addSpan_struct c k cid ct s
  refine ⟨by rw [hs]; exact hb, ?_, by rw [hs]; exact ho⟩
  intro p hp
  rcases mem_addSpan_buckets c k cid ct s p hp with h1 | h1
  · rw [h1, ← hb]
    exact spanBucketTs_dvd c s (hb ▸ ho)
  · exact hk p h1

theorem addNow_aligned (B : Int) (pt : ProcessedTrace) (cid : String) (ct : List String) :
    ∀ c : Concentrator, AlignedState B c → AlignedState B (addNow c pt cid ct) := by
  intro c h
  unfold addNow
  exact foldl_preserves (fun x s hx => addSpan_aligned B x _ cid ct s hx) pt.Spans c h

theorem Add_aligned (B : Int) (t : Input) :
    ∀ c : Concentrator, AlignedState B c → AlignedState B (c.Add t) := by
  intro c h
  unfold Concentrator.Add
  exact foldl_preserves (fun x tr hx => addNow_aligned B tr t.ContainerID t.ContainerTags x hx)
    t.Traces c h

theorem flushNow_aligned (B : Int) (c : Concentrator) (now : Int) (force : Bool)
    (h : AlignedState B c) : AlignedState B ((flushNow c now force).1) := by
  obtain ⟨hb, hk, ho⟩ := h
  rw [flushNow_fst]
  refine ⟨hb, ?_, ?_⟩
  · intro p hp
    unfold flushRetained at hp
    exact hk p (List.mem_filter.mp hp).1
  · dsimp only
    split
    · rw [← hb]
      exact dvd_sub (dvd_alignTs now c.bsize) (Dvd.dvd.mul_left dvd_rfl (c.bufferLen - 1))
    · exact ho

theorem applyOps_aligned (B : Int) (ops : List ConcOp) :
    ∀ c : Concentrator, AlignedState B c → AlignedState B (applyOps c ops) := by
  intro c h
  unfold applyOps
  refine foldl_preserves ?_ ops c h
  intro x op hx
  cases op with
  | add t => exact Add_aligned B t x hx
  | flush now force => exact flushNow_aligned B x now force hx

theorem NewConcentrator_aligned (dpt : List String) (conf : AgentConfig) (now : Int) :
    AlignedState conf.BucketInterval (NewConcentrator dpt conf now) := by
  refine ⟨rfl, ?_, ?_⟩
  · intro p hp
    simp [NewConcentrator] at hp
  · exact dvd_alignTs now conf.BucketInterval

/-! ### Peer-tag merge lemmas -/

instance : IsTotal String strle := ⟨fun a b => le_total a.data b.data⟩

instance : IsTrans String strle := ⟨fun _ _ _ h1 h2 => le_trans h1 h2⟩

instance : IsAntisymm String strle := ⟨fun _ _ h1 h2 => String.ext (le_antisymm h1 h2)⟩

theorem preparePeerTags_nil : preparePeerTags [] = [] := by
  simp [preparePeerTags]

theorem mem_preparePeerTags (l : List String) (x : String) :
    x ∈ preparePeerTags l ↔ x ∈ l := by
  unfold preparePeerTags
  split
  · rename_i h; simp [h]
  · rw [List.Perm.mem_iff (List.perm_insertionSort strle (dedupAux [] l))]
    rw [mem_dedupAux]
    simp

theorem nodup_preparePeerTags (l : List String) : (preparePeerTags l).Nodup := by
  unfold preparePeerTags
  split
  · simp
  · exact ((List.perm_insertionSort strle (dedupAux [] l)).symm).nodup (nodup_dedupAux l [])

theorem sorted_preparePeerTags (l : List String) : (preparePeerTags l).Sorted strle := by
  unfold preparePeerTags
  split
  · simp
  · exact List.sorted_insertionSort strle (dedupAux [] l)

theorem preparePeerTags_perm_inv (l1 l2 : List String) (h : l1.Perm l2) :
    preparePeerTags l1 = preparePeerTags l2 := by
  by_cases h1 : l1 = []
  · subst h1
    rw [(h.symm.eq_nil : l2 = [])]
  · have h2 : l2 ≠ [] := fun hh => h1 (hh ▸ h).eq_nil
    refine List.eq_of_perm_of_sorted ?_ (sorted_preparePeerTags l1) (sorted_preparePeerTags l2)
    rw [List.perm_ext_iff_of_nodup (nodup_preparePeerTags l1) (nodup_preparePeerTags l2)]
    intro a
    rw [mem_preparePeerTags, mem_preparePeerTags]
    exact h.mem_iff

/-! ### Concrete fixtures used by witnesses and the counterexample -/

/-- A concrete agent configuration: 10ns buckets, no peer-tag or span-kind
features. -/
def confW : AgentConfig :=
  { BucketInterval := 10, DefaultEnv := "env", Hostname := "host", AgentVersion := "v1",
    PeerServiceAggregation := false, PeerTagsAggregation := false,
    ComputeStatsBySpanKind := false, PeerTags := [] }

/-- A concrete top-level span ending at time 1 (bucket 0). -/
def spanW : Span :=
  { Start := 0, Duration := 1, Meta := [], TopLevel := true, Measured := false,
    IsPartialSnapshot := false }

/-- A concrete top-level span ending at time 17 (bucket 10). -/
def spanW2 : Span :=
  { Start := 12, Duration := 5, Meta := [], TopLevel := true, Measured := false,
    IsPartialSnapshot := false }

/-- A concrete processed trace holding `spanW`, with empty tracer metadata. -/
def ptW : ProcessedTrace :=
  { TracerHostname := "", TracerEnv := "", AppVersion := "", GitCommitSha := "",
    ImageTag := "", Origin := "", Spans := [spanW] }

/-- A concrete ingestion batch holding `ptW`. -/
def inputW : Input := { Traces := [ptW], ContainerID := "", ContainerTags := [] }

/-- The aggregation key derived by `addNow` for `ptW` under `confW`'s agent
identity. -/
def keyW : PayloadAggregationKey :=
  { Env := "env", Hostname := "host", Version := "", ContainerID := "",
    GitCommitSha := "", ImageTag := "" }

/-- The bucket produced by ingesting `spanW` into a fresh window at
timestamp 0. -/
def bW : RawBucket := { start := 0, duration := 10, data := [(keyW, spanW)], containerTagsByID := [] }

/-- A concrete concentrator state holding `bW` at timestamp 0. -/
def cW : Concentrator :=
  { bsize := 10, oldestTs := 0, bufferLen := 2, buckets := [((0 : Int), bW)],
    agentEnv := "env", agentHostname := "host", agentVersion := "v1",
    peerTagsAggregation := false, computeStatsBySpanKind := false, peerTagKeys := [] }

/-- A concrete span that is neither top-level nor measured, whose `span.kind`
is eligible only through Unicode case mapping (U+0130 lowercases to `i`). -/
def spanKindW : Span :=
  { Start := 12, Duration := 5, Meta := [("span.kind", "CLİENT")], TopLevel := false,
    Measured := false, IsPartialSnapshot := false }

/-- `cW` with span-kind-based eligibility enabled. -/
def cKW : Concentrator :=
  { bsize := 10, oldestTs := 0, bufferLen := 2, buckets := [((0 : Int), bW)],
    agentEnv := "env", agentHostname := "host", agentVersion := "v1",
    peerTagsAggregation := false, computeStatsBySpanKind := true, peerTagKeys := [] }

/-! ### Claim theorems -/

/-- C1: for every span processed by `addNow`, with end time
`e = span.Start + span.Duration`, the bucket timestamp assigned to the span
equals `alignTs e bsize` (i.e. `floor(e, bucketWidth)`) when that is at least
`oldestTs`, and equals `oldestTs` otherwise; the over-late span is merged into
the oldest retained bucket — it lands in the bucket at that timestamp, never
dropped or rejected. -/
theorem spec_claim_C1 (c : Concentrator) (aggKey : PayloadAggregationKey) (cid : String)
    (ct : List String) (s : Span) :
    spanBucketTs c s =
      (if alignTs (s.Start + s.Duration) c.bsize ≥ c.oldestTs
       then alignTs (s.Start + s.Duration) c.bsize
       else c.oldestTs)
    ∧ (spanProcessed c s →
        ∃ b : RawBucket,
          alookup (addSpan c aggKey cid ct s).buckets (spanBucketTs c s) = some b
            ∧ (aggKey, s) ∈ b.data) := by
  constructor
  · unfold spanBucketTs alignTs
    dsimp only
    split <;> split <;> omega
  · intro hp
    obtain ⟨b, h1, h2, _⟩ := addSpan_insert c aggKey cid ct s hp
    exact ⟨b, h1, h2⟩

theorem spec_claim_C1_witness :
    spanProcessed cW spanW2 ∧
      ∃ b : RawBucket,
        alookup (addSpan cW keyW "" [] spanW2).buckets (spanBucketTs cW spanW2) = some b
          ∧ (keyW, spanW2) ∈ b.data :=
  ⟨by decide, (spec_claim_C1 cW keyW "" [] spanW2).2 (by decide)⟩

/-- C2: after a non-forced flush at time snapshot `now`, every bucket
timestamp remaining in the map satisfies `ts > now - bufferLen*bucketWidth`,
and every bucket exported and removed by that flush satisfied
`ts ≤ now - bufferLen*bucketWidth`. -/
theorem spec_claim_C2 (c : Concentrator) (now : Int) :
    (∀ p ∈ ((flushNow c now false).1).buckets, p.1 > now - c.bufferLen * c.bsize)
    ∧ (∀ p ∈ flushExported c now false, p.1 ≤ now - c.bufferLen * c.bsize)
    ∧ (∀ p ∈ c.buckets, p ∉ ((flushNow c now false).1).buckets →
        p.1 ≤ now - c.bufferLen * c.bsize) := by
  have hb : ((flushNow c now false).1).buckets = flushRetained c now false := by
    rw [flushNow_fst]
  refine ⟨?_, ?_, ?_⟩
  · intro p hp
    rw [hb] at hp
    unfold flushRetained at hp
    have h2 := (List.mem_filter.mp hp).2
    simpa using h2
  · intro p hp
    unfold flushExported at hp
    have h2 := (List.mem_filter.mp hp).2
    simp only [Bool.false_or, Bool.not_eq_true', decide_eq_false_iff_not, not_lt] at h2
    exact h2
  · intro p hp hnot
    by_contra hgt
    push_neg at hgt
    apply hnot
    rw [hb]
    unfold flushRetained
    exact List.mem_filter.mpr ⟨hp, by simp [hgt]⟩

theorem spec_claim_C2_witness :
    ((0 : Int), bW) ∈ ((flushNow cW 5 false).1).buckets
      ∧ (0 : Int) > 5 - cW.bufferLen * cW.bsize :=
  ⟨by decide, (spec_claim_C2 cW 5).1 ((0 : Int), bW) (by decide)⟩

/-- C3: a flush with `force = true` exports every bucket in the map
regardless of its timestamp and leaves the bucket map empty. -/
theorem spec_claim_C3 (c : Concentrator) (now : Int) :
    ((flushNow c now true).1).buckets = [] ∧ flushExported c now true = c.buckets := by
  constructor
  · rw [flushNow_fst]
    unfold flushRetained
    simp
  · unfold flushExported
    simp

/-- C4: across any sequence of serialized operations (flushes with arbitrary,
possibly out-of-order, `now` values and interleaved `Add` calls) the
`oldestTs` watermark never decreases, and each flush sets `oldestTs` to
`align(now, bucketWidth) - (bufferLen-1)*bucketWidth` exactly when that
candidate is strictly greater than the current value. -/
theorem spec_claim_C4 (c : Concentrator) (ops : List ConcOp) :
    c.oldestTs ≤ (applyOps c ops).oldestTs
    ∧ ∀ (now : Int) (force : Bool),
        ((flushNow c now force).1).oldestTs =
          if alignTs now c.bsize - (c.bufferLen - 1) * c.bsize > c.oldestTs
          then alignTs now c.bsize - (c.bufferLen - 1) * c.bsize
          else c.oldestTs := by
  refine ⟨applyOps_oldestTs_mono ops c, ?_⟩
  intro now force
  rw [flushNow_fst]

/-- C5: a span contributes to stats (reaches `HandleSpan`, observed as the
total span-application count growing by one) exactly when it is not a partial
snapshot and is top-level, measured, or span-kind-eligible with the feature
enabled; otherwise `addSpan` leaves the state unchanged. -/
theorem spec_claim_C5 (c : Concentrator) (aggKey : PayloadAggregationKey) (cid : String)
    (ct : List String) (s : Span) :
    (spanProcessed c s → totalSpans (addSpan c aggKey cid ct s) = totalSpans c + 1)
    ∧ (¬ spanProcessed c s → addSpan c aggKey cid ct s = c) := by
  constructor
  · intro hp
    obtain ⟨_, _, _, h3⟩ := addSpan_insert c aggKey cid ct s hp
    exact h3
  · intro hp
    exact addSpan_skip c aggKey cid ct s hp

theorem spec_claim_C5_witness :
    spanProcessed cKW spanKindW
      ∧ totalSpans (addSpan cKW keyW "" [] spanKindW) = totalSpans cKW + 1 :=
  ⟨by decide, (spec_claim_C5 cKW keyW "" [] spanKindW).1 (by decide)⟩

/-- C6: `computeStatsForSpanKind` returns true exactly for spans whose
`span.kind` meta value lowercases to one of server, consumer, client,
producer, and false for every other value, including an absent or empty
`span.kind` (for which the Go map read yields `""`). -/
theorem spec_claim_C6 (s : Span) :
    (computeStatsForSpanKind s = true ↔
      toLowerStr (metaGet s.Meta "span.kind") ∈
        (["server", "consumer", "client", "producer"] : List String))
    ∧ (metaGet s.Meta "span.kind" = "" → computeStatsForSpanKind s = false) := by
  constructor
  · unfold computeStatsForSpanKind
    split <;> simp_all
  · intro h
    unfold computeStatsForSpanKind
    rw [h]
    decide

theorem spec_claim_C6_witness :
    (toLowerStr (metaGet spanKindW.Meta "span.kind") ∈
        (["server", "consumer", "client", "producer"] : List String)
      ∧ computeStatsForSpanKind spanKindW = true)
    ∧ (metaGet spanW.Meta "span.kind" = "" ∧ computeStatsForSpanKind spanW = false) :=
  ⟨⟨by decide, (spec_claim_C6 spanKindW).1.mpr (by decide)⟩,
    ⟨by decide, (spec_claim_C6 spanW).2 (by decide)⟩⟩

/-- C7: `preparePeerTags` yields the empty list on empty input; on any input
its output contains exactly the distinct input elements (each once, by
`Nodup`), is sorted ascending in the byte-wise string order, and is
independent of the input order (permutation-invariant). -/
theorem spec_claim_C7 (l1 l2 : List String) :
    preparePeerTags [] = []
    ∧ (∀ x, x ∈ preparePeerTags l1 ↔ x ∈ l1)
    ∧ (preparePeerTags l1).Nodup
    ∧ (preparePeerTags l1).Sorted strle
    ∧ (l1.Perm l2 → preparePeerTags l1 = preparePeerTags l2) :=
  ⟨preparePeerTags_nil, mem_preparePeerTags l1, nodup_preparePeerTags l1,
    sorted_preparePeerTags l1, preparePeerTags_perm_inv l1 l2⟩

theorem spec_claim_C7_witness :
    (["b", "a", "b"] : List String).Perm ["a", "b", "b"]
      ∧ preparePeerTags ["b", "a", "b"] = preparePeerTags ["a", "b", "b"] :=
  ⟨by decide, (spec_claim_C7 ["b", "a", "b"] ["a", "b", "b"]).2.2.2.2 (by decide)⟩

/-- C8 (as stated in the claim, refuted here): two consecutive non-forced
flush calls with no ingestion between them do NOT always produce an empty
second payload — if time advances between them, a bucket retained by the
first flush can age past the retention threshold and be exported by the
second. Concretely: from a fresh concentrator at time 0 with one span in
bucket 0, a flush at 15 retains the bucket and a second flush at 25 exports
it, so the second payload has a group. -/
theorem spec_claim_C8_counterexample :
    ((flushNow ((flushNow (addNow (NewConcentrator [] confW 0) ptW "" []) 15 false).1)
        25 false).2).Stats ≠ [] := by
  decide

/-- C8 (amended): two consecutive non-forced flush calls with no ingestion
between them produce an empty second payload (no groups) whenever the second
flush's time snapshot is not later than the first's — in particular when both
use the same `now` — because the first flush already removed every bucket
that qualifies at that time. -/
theorem spec_claim_C8 (c : Concentrator) (now1 now2 : Int) (h : now2 ≤ now1) :
    ((flushNow ((flushNow c now1 false).1) now2 false).2).Stats = [] := by
  apply flushNow_stats_of_exported_nil
  unfold flushExported
  rw [List.filter_eq_nil_iff]
  intro p hp
  have hb : ((flushNow c now1 false).1).buckets = flushRetained c now1 false := by
    rw [flushNow_fst]
  have hbl : ((flushNow c now1 false).1).bufferLen = c.bufferLen := by rw [flushNow_fst]
  have hbs : ((flushNow c now1 false).1).bsize = c.bsize := by rw [flushNow_fst]
  rw [hb] at hp
  unfold flushRetained at hp
  have h2 := (List.mem_filter.mp hp).2
  have h3 : p.1 > now1 - c.bufferLen * c.bsize := by simpa using h2
  have h4 : p.1 > now2 - ((flushNow c now1 false).1).bufferLen * ((flushNow c now1 false).1).bsize := by
    rw [hbl, hbs]
    omega
  simp [h4]

theorem spec_claim_C8_witness :
    (5 : Int) ≤ 5 ∧ ((flushNow ((flushNow cW 5 false).1) 5 false).2).Stats = [] :=
  ⟨by decide, spec_claim_C8 cW 5 5 (by decide)⟩

/-- C9: on every state reachable from `NewConcentrator` by any sequence of
serialized `Add` and flush operations, every key of the bucket map is a
multiple of the configured bucket width, and so is the `oldestTs` watermark
(covering the construction-time watermark, the timestamps computed by
`addNow`, and the watermark advanced by every flush). -/
theorem spec_claim_C9 (dpt : List String) (conf : AgentConfig) (now0 : Int)
    (ops : List ConcOp) :
    (applyOps (NewConcentrator dpt conf now0) ops).bsize = conf.BucketInterval
    ∧ (∀ p ∈ (applyOps (NewConcentrator dpt conf now0) ops).buckets,
        conf.BucketInterval ∣ p.1)
    ∧ conf.BucketInterval ∣ (applyOps (NewConcentrator dpt conf now0) ops).oldestTs :=
  applyOps_aligned conf.BucketInterval ops (NewConcentrator dpt conf now0)
    (NewConcentrator_aligned dpt conf now0)

theorem spec_claim_C9_witness :
    ((0 : Int), bW) ∈ (applyOps (NewConcentrator [] confW 0) [ConcOp.add inputW]).buckets
      ∧ confW.BucketInterval ∣ (0 : Int) :=
  ⟨by decide,
    (spec_claim_C9 [] confW 0 [ConcOp.add inputW]).2.1 ((0 : Int), bW) (by decide)⟩

/-- C10: every call of `flushNow` yields a payload (the embedding is a total
function, so the writer is never handed a missing payload) whose
`AgentHostname`, `AgentEnv` and `AgentVersion` equal the concentrator's
configured agent identity fields, and whose `Stats` list is empty whenever no
bucket qualifies for export. -/
theorem spec_claim_C10 (c : Concentrator) (now : Int) (force : Bool) :
    ((flushNow c now force).2).AgentHostname = c.agentHostname
    ∧ ((flushNow c now force).2).AgentEnv = c.agentEnv
    ∧ ((flushNow c now force).2).AgentVersion = c.agentVersion
    ∧ (flushExported c now force = [] → ((flushNow c now force).2).Stats = []) :=
  ⟨rfl, rfl, rfl, flushNow_stats_of_exported_nil c now force⟩

theorem spec_claim_C10_witness :
    flushExported cW 5 false = [] ∧ ((flushNow cW 5 false).2).Stats = [] :=
  ⟨by decide, (spec_claim_C10 cW 5 false).2.2.2 (by decide)⟩
